import Mathlib

/-!
Verification of the core video-assembly and adaptive-speed encoding logic of
the AI-Reddit-BrainRot pipeline.

The development shallowly embeds the two core source modules:

* `video_creator.py` — the speed-factor policy (`get_speedup_factor`) and the
  tiered VAAPI/CPU encoding fallback
  (`_apply_duration_based_speed_vaapi`, `_try_alternative_vaapi_device`,
  `_apply_duration_based_speed_cpu_fallback`);
* `video_utils.py` — the clip-selection algorithm
  (`pick_non_repeating_videos`).

Python floats are modelled as rationals (`ℚ`).  Calls to the `random` module
are modelled by explicit parameters: `random.uniform(150, 166)` becomes a
`target_duration` argument constrained to `[150, 166]`, and the stream of
random decisions inside the selection loop becomes an `Oracle : Nat → Nat`
whose value at a fresh position, reduced modulo the number of alternatives,
picks one alternative.  A property proved for every oracle (resp. exhibited
for one concrete oracle) holds for every run (resp. for a possible run) of
the randomized Python code.
-/

/-! ### `get_speedup_factor` (video_creator.py, lines 14–43)

```
if duration_seconds <= 90: return 1.0
elif duration_seconds < 180: return 1.0 + (duration_seconds - 90) / (179 - 90)
else:
    target_duration = random.uniform(150, 166)
    return duration_seconds / target_duration
```
The random draw is the explicit argument `target_duration`. -/
def get_speedup_factor (duration_seconds : ℚ) (target_duration : ℚ) : ℚ :=
  if duration_seconds ≤ 90 then 1
  else if duration_seconds < 180 then 1 + (duration_seconds - 90) / (179 - 90)
  else duration_seconds / target_duration

example : get_speedup_factor 45 160 = 1 := by norm_num [get_speedup_factor]
example : get_speedup_factor 179 160 = 2 := by norm_num [get_speedup_factor]
example : get_speedup_factor 320 160 = 2 := by norm_num [get_speedup_factor]

/-- C1: the speed-factor function is the piecewise policy of the spec:
for `duration ≤ 90` it returns exactly `1.0`; for `90 < duration < 180` it
returns `1.0 + (duration − 90) / 89` (hence `2.0` at `179`); and for
`duration ≥ 180` it returns `duration / target` where `target` is the random
draw from `[150, 166]`, so the result lies in `[duration/166, duration/150]`. -/
theorem C1_speedup_factor_policy (d t : ℚ) (ht₁ : 150 ≤ t) (ht₂ : t ≤ 166) :
    (d ≤ 90 → get_speedup_factor d t = 1) ∧
    (90 < d → d < 180 → get_speedup_factor d t = 1 + (d - 90) / 89) ∧
    (get_speedup_factor 179 t = 2) ∧
    (180 ≤ d → get_speedup_factor d t = d / t ∧
      d / 166 ≤ get_speedup_factor d t ∧ get_speedup_factor d t ≤ d / 150) := by
  have ht0 : (0:ℚ) < t := lt_of_lt_of_le (by norm_num) ht₁
  refine ⟨fun h => by simp [get_speedup_factor, h], fun h₁ h₂ => ?_, ?_, fun h => ?_⟩
  · rw [get_speedup_factor, if_neg (by linarith), if_pos h₂]
    norm_num
  · norm_num [get_speedup_factor]
  · have hd0 : (0:ℚ) ≤ d := by linarith
    have heq : get_speedup_factor d t = d / t := by
      rw [get_speedup_factor, if_neg (by linarith), if_neg (by linarith)]
    refine ⟨heq, ?_, ?_⟩
    · rw [heq]
      exact div_le_div_of_nonneg_left hd0 ht0 ht₂
    · rw [heq]
      exact div_le_div_of_nonneg_left hd0 (by norm_num) ht₁

/-- Witness for C1 at duration 179 and target 160. -/
theorem C1_speedup_factor_policy_witness :
    (179 : ℚ) < 180 ∧ get_speedup_factor 179 160 = 1 + (179 - 90) / 89 := by
  refine ⟨by norm_num, (C1_speedup_factor_policy 179 160 (by norm_num)
    (by norm_num)).2.1 (by norm_num) (by norm_num)⟩

/-- C10 (implicit): the speed factor is always `≥ 1.0` — the pipeline never
slows a video down — and it equals `1.0` exactly when the duration is
`≤ 90` seconds; for `duration ≥ 180` it is at least `180/166 > 1`. -/
theorem C10_speedup_factor_never_slows (d t : ℚ) (ht₁ : 150 ≤ t) (ht₂ : t ≤ 166) :
    1 ≤ get_speedup_factor d t ∧
    (get_speedup_factor d t = 1 ↔ d ≤ 90) ∧
    (180 ≤ d → (180 : ℚ) / 166 ≤ get_speedup_factor d t) := by
  have ht0 : (0:ℚ) < t := lt_of_lt_of_le (by norm_num) ht₁
  by_cases h90 : d ≤ 90
  · refine ⟨?_, ?_, fun h => absurd (le_trans h h90) (by norm_num)⟩ <;>
      simp [get_speedup_factor, h90]
  · push_neg at h90
    by_cases h180 : d < 180
    · have heq : get_speedup_factor d t = 1 + (d - 90) / 89 := by
        rw [get_speedup_factor, if_neg (by linarith), if_pos h180]; norm_num
      constructor
      · rw [heq]; nlinarith
      constructor
      · rw [heq]
        constructor
        · intro h; nlinarith
        · intro h; linarith
      · intro h; linarith
    · push_neg at h180
      have heq : get_speedup_factor d t = d / t := by
        rw [get_speedup_factor, if_neg (by linarith), if_neg (by linarith)]
      have hlow : (180 : ℚ) / 166 ≤ d / t := by
        rw [div_le_div_iff₀ (by norm_num) ht0]
        nlinarith
      refine ⟨le_trans (by norm_num) (heq ▸ hlow), ⟨fun h => ?_, fun h => by linarith⟩,
        fun _ => heq ▸ hlow⟩
      exfalso
      rw [heq] at h
      have : d = t := by field_simp at h; linarith
      linarith

/-- Witness for C10 at duration 200 and target 150. -/
theorem C10_speedup_factor_never_slows_witness :
    (150 : ℚ) ≤ 150 ∧ 1 ≤ get_speedup_factor 200 150 := by
  exact ⟨le_refl _, (C10_speedup_factor_never_slows 200 150 (by norm_num) (by norm_num)).1⟩

/-! ### Tiered encoding fallback (video_creator.py, lines 129–316)

The encoder is modelled over three pieces of state and environment:

* `Backend` — the three ffmpeg invocations the source can build.  The
  `-c:v` codec each command passes is recorded by `codec`; the source
  contains no NVENC command (`h264_nvenc` appears nowhere).
* `ExecOutcome` — how one `subprocess.run` call ends: exit code 0,
  non-zero exit, `subprocess.TimeoutExpired`, `FileNotFoundError`
  (missing binary; the process never starts, so nothing is written),
  or any other exception.
* `OutputFolder` — existence flags for the two video paths the source
  manipulates (`normal_speed.mp4`, `final_output.mp4`) and for a
  speed-metadata sidecar record.  No statement in the source writes any
  speed-metadata file (`speed_factor` occurs only as a local variable and
  in `print` calls), so no operation below sets `speed_profile`.

A failing ffmpeg attempt may have partially written `final_output.mp4`
before failing; whether it did is the environment's `leavesPartial` bit. -/

inductive Backend
  | vaapi_renderD128
  | vaapi_renderD129
  | cpu_libx264
deriving DecidableEq, Repr

/-- The `-c:v` encoder string of each ffmpeg command the source builds
(video_creator.py lines 157, 242, 287). -/
def codec : Backend → String
  | .vaapi_renderD128 => "h264_vaapi"
  | .vaapi_renderD129 => "h264_vaapi"
  | .cpu_libx264 => "libx264"

/-- Modelled from the spec: a backend is "NVENC-class" when it uses an
NVENC hardware encoder. -/
def isNvencClass (b : Backend) : Bool := codec b = "h264_nvenc"

inductive ExecOutcome
  | success
  | nonzeroExit
  | timedOut
  | binMissing
  | otherError
deriving DecidableEq, Repr

structure EncodeEnv where
  outcome : Backend → ExecOutcome
  leavesPartial : Backend → Bool

structure OutputFolder where
  normal_speed : Bool
  final_output : Bool
  speed_profile : Bool
deriving DecidableEq, Repr

/-- One `subprocess.run(ffmpeg_command, ...)` call on backend `b`:
returns how the call ended and its effect on `final_output.mp4`
(written fully on success, possibly partially on a failure, untouched
when the binary is missing). -/
def runFfmpeg (env : EncodeEnv) (b : Backend) (fs : OutputFolder) :
    ExecOutcome × OutputFolder :=
  match env.outcome b with
  | .success => (.success, { fs with final_output := true })
  | .binMissing => (.binMissing, fs)
  | .nonzeroExit => (.nonzeroExit, { fs with final_output := fs.final_output || env.leavesPartial b })
  | .timedOut => (.timedOut, { fs with final_output := fs.final_output || env.leavesPartial b })
  | .otherError => (.otherError, { fs with final_output := fs.final_output || env.leavesPartial b })

/-- `_try_alternative_vaapi_device` (lines 226–270): run ffmpeg on
`/dev/dri/renderD129`; on exit code 0 remove `normal_speed.mp4` and return
True; on non-zero exit or any exception (all caught) return False. -/
def try_alternative_vaapi_device (env : EncodeEnv) (fs : OutputFolder) :
    Bool × OutputFolder :=
  let r := runFfmpeg env .vaapi_renderD129 fs
  match r.1 with
  | .success => (true, { r.2 with normal_speed := false })
  | _ => (false, r.2)

/-- `_apply_duration_based_speed_cpu_fallback` (lines 273–316): run the
CPU (libx264) ffmpeg command; on exit code 0 remove `normal_speed.mp4` and
return True; on non-zero exit or any exception (all caught) return False. -/
def cpu_fallback (env : EncodeEnv) (fs : OutputFolder) : Bool × OutputFolder :=
  let r := runFfmpeg env .cpu_libx264 fs
  match r.1 with
  | .success => (true, { r.2 with normal_speed := false })
  | _ => (false, r.2)

/-- `if os.path.exists(normal_output): os.rename(normal_output, sped_up_output)`
(lines 195–196, 205–206, 211–212, 220–221). -/
def rename_normal_to_final (fs : OutputFolder) : OutputFolder :=
  if fs.normal_speed then { fs with normal_speed := false, final_output := true } else fs

/-- `_apply_duration_based_speed_vaapi` (lines 129–223), the whole tiered
encode.  `speed_factor_is_one` decides the factor-1.0 rename branch
(line 138; the unguarded `os.rename` there presumes the intermediate
exists).  Besides the resulting folder state, the list of ffmpeg attempts
is returned in order, instrumenting which backends ran:

* first attempt exits 0 → remove intermediate, done;
* non-zero exit → `_try_alternative_vaapi_device`; if that fails,
  `_apply_duration_based_speed_cpu_fallback`; if that fails, rename;
* `TimeoutExpired` (line 198) → CPU fallback directly, else rename;
* `FileNotFoundError` (line 208) → rename, no further attempt;
* any other exception (line 214) → CPU fallback, else rename. -/
def apply_duration_based_speed_vaapi (env : EncodeEnv) (speed_factor_is_one : Bool)
    (fs : OutputFolder) : OutputFolder × List Backend :=
  if speed_factor_is_one then
    ({ fs with normal_speed := false, final_output := true }, [])
  else
    let r := runFfmpeg env .vaapi_renderD128 fs
    match r.1 with
    | .success => ({ r.2 with normal_speed := false }, [.vaapi_renderD128])
    | .nonzeroExit =>
        let alt := try_alternative_vaapi_device env r.2
        if alt.1 then (alt.2, [.vaapi_renderD128, .vaapi_renderD129])
        else
          let cf := cpu_fallback env alt.2
          if cf.1 then (cf.2, [.vaapi_renderD128, .vaapi_renderD129, .cpu_libx264])
          else (rename_normal_to_final cf.2,
                [.vaapi_renderD128, .vaapi_renderD129, .cpu_libx264])
    | .timedOut =>
        let cf := cpu_fallback env r.2
        if cf.1 then (cf.2, [.vaapi_renderD128, .cpu_libx264])
        else (rename_normal_to_final cf.2, [.vaapi_renderD128, .cpu_libx264])
    | .binMissing => (rename_normal_to_final r.2, [.vaapi_renderD128])
    | .otherError =>
        let cf := cpu_fallback env r.2
        if cf.1 then (cf.2, [.vaapi_renderD128, .cpu_libx264])
        else (rename_normal_to_final cf.2, [.vaapi_renderD128, .cpu_libx264])

/-- Environment in which every ffmpeg attempt fails with a non-zero exit
code and writes nothing. -/
def envAllFail : EncodeEnv :=
  { outcome := fun _ => .nonzeroExit, leavesPartial := fun _ => false }

/-- Environment in which the first VAAPI attempt times out and every other
attempt would succeed. -/
def envFirstTimesOut : EncodeEnv :=
  { outcome := fun b => match b with
      | .vaapi_renderD128 => .timedOut
      | _ => .success,
    leavesPartial := fun _ => false }

/-- Folder state on entry to the encode step: the pre-speed intermediate
`normal_speed.mp4` exists, nothing else does. -/
def fsEntry : OutputFolder :=
  { normal_speed := true, final_output := false, speed_profile := false }

theorem runFfmpeg_fst (env : EncodeEnv) (b : Backend) (fs : OutputFolder) :
    (runFfmpeg env b fs).1 = env.outcome b := by
  unfold runFfmpeg
  cases env.outcome b <;> rfl

theorem try_alternative_vaapi_device_fst (env : EncodeEnv) (fs : OutputFolder) :
    (try_alternative_vaapi_device env fs).1 =
      decide (env.outcome .vaapi_renderD129 = .success) := by
  unfold try_alternative_vaapi_device
  simp only [runFfmpeg_fst]
  cases h : env.outcome .vaapi_renderD129 <;> simp [h]

theorem cpu_fallback_fst (env : EncodeEnv) (fs : OutputFolder) :
    (cpu_fallback env fs).1 = decide (env.outcome .cpu_libx264 = .success) := by
  unfold cpu_fallback
  simp only [runFfmpeg_fst]
  cases h : env.outcome .cpu_libx264 <;> simp [h]

/-- The attempt list of a non-1.0-factor encode run, as a function of the
environment alone: `renderD128` always runs first; its non-zero exit leads
to `renderD129` and then (unless that succeeded) the CPU encoder; its
timeout or unexpected exception leads directly to the CPU encoder; its
missing-binary failure ends the attempts. -/
theorem encode_trace_eq (env : EncodeEnv) (fs : OutputFolder) :
    (apply_duration_based_speed_vaapi env false fs).2 =
      (match env.outcome .vaapi_renderD128 with
       | .success => [Backend.vaapi_renderD128]
       | .binMissing => [Backend.vaapi_renderD128]
       | .nonzeroExit =>
           if env.outcome .vaapi_renderD129 = .success then
             [Backend.vaapi_renderD128, Backend.vaapi_renderD129]
           else [Backend.vaapi_renderD128, Backend.vaapi_renderD129, Backend.cpu_libx264]
       | _ => [Backend.vaapi_renderD128, Backend.cpu_libx264]) := by
  unfold apply_duration_based_speed_vaapi
  simp only [Bool.false_eq_true, if_false, runFfmpeg_fst,
    try_alternative_vaapi_device_fst, cpu_fallback_fst]
  cases h1 : env.outcome .vaapi_renderD128
  case success => rfl
  case nonzeroExit =>
    by_cases h2 : env.outcome .vaapi_renderD129 = .success <;>
      by_cases h3 : env.outcome .cpu_libx264 = .success <;>
        simp [h2, h3]
  case timedOut => by_cases h3 : env.outcome .cpu_libx264 = .success <;> simp [h3]
  case binMissing => rfl
  case otherError => by_cases h3 : env.outcome .cpu_libx264 = .success <;> simp [h3]

/-- C4 counterexample: when every ffmpeg attempt fails with a non-zero
exit code, the backends attempted are exactly VAAPI `/dev/dri/renderD128`,
VAAPI `/dev/dri/renderD129`, then the CPU encoder — no NVENC-class
backend is ever attempted between the VAAPI tier and the CPU tier,
contradicting the claimed VAAPI → NVENC → CPU order. -/
theorem C4_no_nvenc_tier_counterexample :
    (apply_duration_based_speed_vaapi envAllFail false fsEntry).2 =
      [Backend.vaapi_renderD128, Backend.vaapi_renderD129, Backend.cpu_libx264] ∧
    ((apply_duration_based_speed_vaapi envAllFail false fsEntry).2.all
      (fun b => !isNvencClass b)) = true := by
  refine ⟨rfl, by decide⟩

/-- C4 amended: on every encode invocation whose speed factor is not 1.0,
the attempt order is: VAAPI `renderD128` first; on its non-zero exit,
VAAPI `renderD129`, then (unless that succeeded) the software CPU
encoder; on its timeout or an unexpected exception, the CPU encoder
directly (the alternative VAAPI device is skipped); on a missing ffmpeg
binary, no further backend.  No NVENC-class backend is ever attempted. -/
theorem C4_tier_order_amended (env : EncodeEnv) (fs : OutputFolder) :
    (apply_duration_based_speed_vaapi env false fs).2 =
      (match env.outcome .vaapi_renderD128 with
       | .success => [Backend.vaapi_renderD128]
       | .binMissing => [Backend.vaapi_renderD128]
       | .nonzeroExit =>
           if env.outcome .vaapi_renderD129 = .success then
             [Backend.vaapi_renderD128, Backend.vaapi_renderD129]
           else [Backend.vaapi_renderD128, Backend.vaapi_renderD129, Backend.cpu_libx264]
       | _ => [Backend.vaapi_renderD128, Backend.cpu_libx264]) ∧
    ∀ b ∈ (apply_duration_based_speed_vaapi env false fs).2, isNvencClass b = false := by
  constructor
  · exact encode_trace_eq env fs
  · intro b _
    cases b <;> decide

/-- C7 counterexample: in an environment where the first VAAPI attempt
times out and every other backend would succeed, the attempts are
VAAPI `renderD128` then CPU — the tier immediately following the
timed-out one (VAAPI `renderD129`) is skipped, not fallen through to. -/
theorem C7_timeout_skips_next_tier_counterexample :
    (apply_duration_based_speed_vaapi envFirstTimesOut false fsEntry).2 =
      [Backend.vaapi_renderD128, Backend.cpu_libx264] ∧
    Backend.vaapi_renderD129 ∉
      (apply_duration_based_speed_vaapi envFirstTimesOut false fsEntry).2 := by
  refine ⟨rfl, by decide⟩

/-- C7 amended: a timed-out tier attempt counts as a tier failure and is
never retried, but a timeout of the first VAAPI attempt falls through
directly to the CPU tier, skipping the alternative VAAPI device: the
attempt list is exactly `[renderD128, cpu]`, duplicate-free. -/
theorem C7_timeout_fallthrough_amended (env : EncodeEnv) (fs : OutputFolder)
    (h : env.outcome .vaapi_renderD128 = .timedOut) :
    (apply_duration_based_speed_vaapi env false fs).2 =
      [Backend.vaapi_renderD128, Backend.cpu_libx264] ∧
    (apply_duration_based_speed_vaapi env false fs).2.Nodup := by
  have htr : (apply_duration_based_speed_vaapi env false fs).2 =
      [Backend.vaapi_renderD128, Backend.cpu_libx264] := by
    rw [encode_trace_eq, h]
  exact ⟨htr, htr ▸ by decide⟩

/-- Witness for C7 amended. -/
theorem C7_timeout_fallthrough_amended_witness :
    envFirstTimesOut.outcome .vaapi_renderD128 = .timedOut ∧
    (apply_duration_based_speed_vaapi envFirstTimesOut false fsEntry).2 =
      [Backend.vaapi_renderD128, Backend.cpu_libx264] := by
  exact ⟨rfl, (C7_timeout_fallthrough_amended envFirstTimesOut fsEntry rfl).1⟩

theorem runFfmpeg_snd_normal (env : EncodeEnv) (b : Backend) (fs : OutputFolder) :
    (runFfmpeg env b fs).2.normal_speed = fs.normal_speed := by
  unfold runFfmpeg
  cases env.outcome b <;> rfl

theorem runFfmpeg_snd_profile (env : EncodeEnv) (b : Backend) (fs : OutputFolder) :
    (runFfmpeg env b fs).2.speed_profile = fs.speed_profile := by
  unfold runFfmpeg
  cases env.outcome b <;> rfl

theorem runFfmpeg_snd_final_of_success (env : EncodeEnv) (b : Backend) (fs : OutputFolder)
    (h : env.outcome b = .success) : (runFfmpeg env b fs).2.final_output = true := by
  unfold runFfmpeg
  rw [h]

theorem try_alternative_vaapi_device_success (env : EncodeEnv) (fs : OutputFolder)
    (h : env.outcome .vaapi_renderD129 = .success) :
    (try_alternative_vaapi_device env fs).2.normal_speed = false ∧
    (try_alternative_vaapi_device env fs).2.final_output = true := by
  unfold try_alternative_vaapi_device runFfmpeg
  rw [h]
  exact ⟨rfl, rfl⟩

theorem try_alternative_vaapi_device_failure (env : EncodeEnv) (fs : OutputFolder)
    (h : env.outcome .vaapi_renderD129 ≠ .success) :
    (try_alternative_vaapi_device env fs).2.normal_speed = fs.normal_speed := by
  unfold try_alternative_vaapi_device
  simp only [runFfmpeg_fst]
  cases h2 : env.outcome .vaapi_renderD129 <;>
    simp_all [runFfmpeg_snd_normal]

theorem try_alternative_vaapi_device_profile (env : EncodeEnv) (fs : OutputFolder) :
    (try_alternative_vaapi_device env fs).2.speed_profile = fs.speed_profile := by
  unfold try_alternative_vaapi_device
  cases h2 : (runFfmpeg env .vaapi_renderD129 fs).1 <;>
    simp_all [runFfmpeg_snd_profile]

theorem cpu_fallback_success (env : EncodeEnv) (fs : OutputFolder)
    (h : env.outcome .cpu_libx264 = .success) :
    (cpu_fallback env fs).2.normal_speed = false ∧
    (cpu_fallback env fs).2.final_output = true := by
  unfold cpu_fallback runFfmpeg
  rw [h]
  exact ⟨rfl, rfl⟩

theorem cpu_fallback_failure (env : EncodeEnv) (fs : OutputFolder)
    (h : env.outcome .cpu_libx264 ≠ .success) :
    (cpu_fallback env fs).2.normal_speed = fs.normal_speed := by
  unfold cpu_fallback
  simp only [runFfmpeg_fst]
  cases h2 : env.outcome .cpu_libx264 <;>
    simp_all [runFfmpeg_snd_normal]

theorem cpu_fallback_profile (env : EncodeEnv) (fs : OutputFolder) :
    (cpu_fallback env fs).2.speed_profile = fs.speed_profile := by
  unfold cpu_fallback
  cases h2 : (runFfmpeg env .cpu_libx264 fs).1 <;>
    simp_all [runFfmpeg_snd_profile]

theorem rename_normal_to_final_of_normal (fs : OutputFolder)
    (h : fs.normal_speed = true) :
    (rename_normal_to_final fs).final_output = true ∧
    (rename_normal_to_final fs).normal_speed = false := by
  unfold rename_normal_to_final
  rw [if_pos h]
  exact ⟨rfl, rfl⟩

theorem rename_normal_to_final_profile (fs : OutputFolder) :
    (rename_normal_to_final fs).speed_profile = fs.speed_profile := by
  unfold rename_normal_to_final
  split <;> rfl

/-- Environment in which the first ffmpeg attempt already succeeds. -/
def envAllSucceed : EncodeEnv :=
  { outcome := fun _ => .success, leavesPartial := fun _ => false }

/-- C5 counterexample: a fully successful encode run (first VAAPI tier
succeeds) completes with the final video present, yet no SpeedProfile
sidecar record exists in the output folder — the source never writes one. -/
theorem C5_no_sidecar_counterexample :
    (apply_duration_based_speed_vaapi envAllSucceed false fsEntry).1.final_output = true ∧
    (apply_duration_based_speed_vaapi envAllSucceed false fsEntry).1.speed_profile = false := by
  decide

/-- C5 amended: every completed encode call leaves the speed-profile
sidecar state of the output folder exactly as it found it — no
SpeedProfile record is ever persisted; the computed factor and durations
are only printed to the console. -/
theorem C5_no_sidecar_amended (env : EncodeEnv) (b : Bool) (fs : OutputFolder) :
    (apply_duration_based_speed_vaapi env b fs).1.speed_profile = fs.speed_profile := by
  unfold apply_duration_based_speed_vaapi
  cases b
  · simp only [Bool.false_eq_true, if_false]
    cases h1 : (runFfmpeg env .vaapi_renderD128 fs).1
    case success => simp [runFfmpeg_snd_profile]
    case nonzeroExit =>
      by_cases h2 : (try_alternative_vaapi_device env (runFfmpeg env .vaapi_renderD128 fs).2).1 = true <;>
        by_cases h3 : (cpu_fallback env (try_alternative_vaapi_device env
            (runFfmpeg env .vaapi_renderD128 fs).2).2).1 = true <;>
          simp [h2, h3, cpu_fallback_profile, try_alternative_vaapi_device_profile,
            rename_normal_to_final_profile, runFfmpeg_snd_profile]
    case timedOut =>
      by_cases h3 : (cpu_fallback env (runFfmpeg env .vaapi_renderD128 fs).2).1 = true <;>
        simp [h3, cpu_fallback_profile, rename_normal_to_final_profile, runFfmpeg_snd_profile]
    case binMissing =>
      simp [rename_normal_to_final_profile, runFfmpeg_snd_profile]
    case otherError =>
      by_cases h3 : (cpu_fallback env (runFfmpeg env .vaapi_renderD128 fs).2).1 = true <;>
        simp [h3, cpu_fallback_profile, rename_normal_to_final_profile, runFfmpeg_snd_profile]
  · rfl

/-- C6: after every completed encode call — the factor-1.0 rename branch,
a successful encoder tier, or the all-tiers-failed rename fallback —
starting from a state where the pre-speed intermediate exists, the final
output file exists and the intermediate no longer does (exactly one video
artifact remains). -/
theorem C6_single_artifact (env : EncodeEnv) (speed_factor_is_one : Bool)
    (fs : OutputFolder) (h : fs.normal_speed = true) :
    (apply_duration_based_speed_vaapi env speed_factor_is_one fs).1.final_output = true ∧
    (apply_duration_based_speed_vaapi env speed_factor_is_one fs).1.normal_speed = false := by
  unfold apply_duration_based_speed_vaapi
  cases speed_factor_is_one
  case true => exact ⟨rfl, rfl⟩
  case false =>
  simp only [Bool.false_eq_true, if_false]
  have hrn : (runFfmpeg env .vaapi_renderD128 fs).2.normal_speed = true := by
    rw [runFfmpeg_snd_normal, h]
  cases h1 : (runFfmpeg env .vaapi_renderD128 fs).1
  case success =>
    have hf : (runFfmpeg env .vaapi_renderD128 fs).2.final_output = true := by
      apply runFfmpeg_snd_final_of_success
      rw [← runFfmpeg_fst env .vaapi_renderD128 fs, h1]
    simp [hf]
  case nonzeroExit =>
    by_cases h2 : env.outcome .vaapi_renderD129 = .success
    · have halt := try_alternative_vaapi_device_success env
        (runFfmpeg env .vaapi_renderD128 fs).2 h2
      have h2' : (try_alternative_vaapi_device env (runFfmpeg env .vaapi_renderD128 fs).2).1 = true := by
        rw [try_alternative_vaapi_device_fst, h2]
        rfl
      simp [h2', halt.1, halt.2]
    · have halt := try_alternative_vaapi_device_failure env
        (runFfmpeg env .vaapi_renderD128 fs).2 h2
      have h2' : (try_alternative_vaapi_device env (runFfmpeg env .vaapi_renderD128 fs).2).1 = false := by
        rw [try_alternative_vaapi_device_fst]
        simpa using h2
      have haltn : (try_alternative_vaapi_device env (runFfmpeg env .vaapi_renderD128 fs).2).2.normal_speed = true := by
        rw [halt, hrn]
      by_cases h3 : env.outcome .cpu_libx264 = .success
      · have hcf := cpu_fallback_success env
          (try_alternative_vaapi_device env (runFfmpeg env .vaapi_renderD128 fs).2).2 h3
        have h3' : (cpu_fallback env (try_alternative_vaapi_device env
            (runFfmpeg env .vaapi_renderD128 fs).2).2).1 = true := by
          rw [cpu_fallback_fst, h3]
          rfl
        simp [h2', h3', hcf.1, hcf.2]
      · have hcf := cpu_fallback_failure env
          (try_alternative_vaapi_device env (runFfmpeg env .vaapi_renderD128 fs).2).2 h3
        have h3' : (cpu_fallback env (try_alternative_vaapi_device env
            (runFfmpeg env .vaapi_renderD128 fs).2).2).1 = false := by
          rw [cpu_fallback_fst]
          simpa using h3
        have hcfn : (cpu_fallback env (try_alternative_vaapi_device env
            (runFfmpeg env .vaapi_renderD128 fs).2).2).2.normal_speed = true := by
          rw [hcf, haltn]
        have hren := rename_normal_to_final_of_normal _ hcfn
        simp [h2', h3', hren.1, hren.2]
  case timedOut =>
    by_cases h3 : env.outcome .cpu_libx264 = .success
    · have hcf := cpu_fallback_success env (runFfmpeg env .vaapi_renderD128 fs).2 h3
      have h3' : (cpu_fallback env (runFfmpeg env .vaapi_renderD128 fs).2).1 = true := by
        rw [cpu_fallback_fst, h3]
        rfl
      simp [h3', hcf.1, hcf.2]
    · have hcf := cpu_fallback_failure env (runFfmpeg env .vaapi_renderD128 fs).2 h3
      have h3' : (cpu_fallback env (runFfmpeg env .vaapi_renderD128 fs).2).1 = false := by
        rw [cpu_fallback_fst]
        simpa using h3
      have hcfn : (cpu_fallback env (runFfmpeg env .vaapi_renderD128 fs).2).2.normal_speed = true := by
        rw [hcf, hrn]
      have hren := rename_normal_to_final_of_normal _ hcfn
      simp [h3', hren.1, hren.2]
  case binMissing =>
    have hren := rename_normal_to_final_of_normal _ hrn
    simp [hren.1, hren.2]
  case otherError =>
    by_cases h3 : env.outcome .cpu_libx264 = .success
    · have hcf := cpu_fallback_success env (runFfmpeg env .vaapi_renderD128 fs).2 h3
      have h3' : (cpu_fallback env (runFfmpeg env .vaapi_renderD128 fs).2).1 = true := by
        rw [cpu_fallback_fst, h3]
        rfl
      simp [h3', hcf.1, hcf.2]
    · have hcf := cpu_fallback_failure env (runFfmpeg env .vaapi_renderD128 fs).2 h3
      have h3' : (cpu_fallback env (runFfmpeg env .vaapi_renderD128 fs).2).1 = false := by
        rw [cpu_fallback_fst]
        simpa using h3
      have hcfn : (cpu_fallback env (runFfmpeg env .vaapi_renderD128 fs).2).2.normal_speed = true := by
        rw [hcf, hrn]
      have hren := rename_normal_to_final_of_normal _ hcfn
      simp [h3', hren.1, hren.2]

/-- Witness for C6 in the all-attempts-fail environment starting from the
entry state. -/
theorem C6_single_artifact_witness :
    fsEntry.normal_speed = true ∧
    (apply_duration_based_speed_vaapi envAllFail false fsEntry).1.final_output = true ∧
    (apply_duration_based_speed_vaapi envAllFail false fsEntry).1.normal_speed = false := by
  exact ⟨rfl, C6_single_artifact envAllFail false fsEntry rfl⟩

/-! ### Clip selection (video_utils.py, lines 58–144)

`pick_non_repeating_videos(folder_to_videos, count)` is embedded with the
dict `folder_to_videos` as an association list with distinct keys (a
Python dict) and the `random` calls driven by an oracle stream:

* `random.sample(population, k)` (single-folder branch, line 75) draws
  `k` positions without replacement, the oracle choosing each position;
* `random.shuffle(candidate_folders)` followed by the scan for the first
  folder with unused videos (lines 106–112) selects some folder of the
  qualifying sublist — any qualifying folder can be first after a
  shuffle, and which one is the oracle's choice;
* the `for folder in available_folders_in_round` fallback scan
  (lines 121–126) iterates a Python set in unspecified order, so it too
  selects some qualifying folder, chosen by the oracle;
* `random.choice(unused_videos)` (line 131) is an oracle-chosen index.

`folders_with_videos[folder]` is modelled by `dict_get` with default
`[]`: in Python a missing key raises `KeyError`, which can only happen
for a folder whose video list is empty (`folders_with_videos` drops
those), and every property below is about catalogs with non-empty
folders, on which the two behaviours agree.

The state carries, besides the source's loop variables, a `round`
counter (incremented at each refill of the round pool, line 90) and a
`folder_trace` recording the round and folder of each pick; `result` is
exactly the source's result list. -/

abbrev Oracle := Nat → Nat

abbrev Catalog := List (String × List String)

/-- `total_videos = sum(len(videos) for videos in folder_to_videos.values())`
(line 67). -/
def total_videos (folder_to_videos : Catalog) : Nat :=
  (folder_to_videos.map (fun p => p.2.length)).sum

/-- Python dict lookup (total, with default `[]` — see the section
comment). -/
def dict_get : Catalog → String → List String
  | [], _ => []
  | p :: rest, f => if p.1 = f then p.2 else dict_get rest f

/-- `folders_with_videos = {folder: list(videos) for folder, videos in
folder_to_videos.items() if videos}` (line 84). -/
def folders_with_videos (folder_to_videos : Catalog) : Catalog :=
  folder_to_videos.filter (fun p => !p.2.isEmpty)

/-- `unused_videos = [v for v in folders_with_videos[folder] if v not in
used_videos]` (lines 109, 116, 123, 130). -/
def unused_videos (fwv : Catalog) (used_videos : List String) (folder : String) :
    List String :=
  (dict_get fwv folder).filter (fun v => decide (v ∉ used_videos))

/-- The refilled round pool (lines 90–93): every folder of
`folders_with_videos` that still has at least one unused video. -/
def refill_round (fwv : Catalog) (used_videos : List String) : List String :=
  (fwv.filter (fun p => p.2.any (fun v => decide (v ∉ used_videos)))).map Prod.fst

/-- `random.sample(l, k)` with oracle-chosen positions, positions drawn
without replacement (video_utils.py line 75). -/
def random_sample (o : Oracle) : Nat → Nat → List String → List String
  | _, 0, _ => []
  | t, k + 1, l =>
    match l[o t % l.length]? with
    | none => []
    | some v => v :: random_sample o (t + 1) k (l.eraseIdx (o t % l.length))

/-- `candidate_folders` of one loop iteration (lines 100–102): the round
pool, minus the previous folder when it is present and not the only
candidate. -/
def candidate_folders (available : List String) (last_folder : Option String) :
    List String :=
  match last_folder with
  | some lf => if lf ∈ available ∧ 1 < available.length then available.erase lf
               else available
  | none => available

/-- The candidates that have an unused video: after `random.shuffle`, the
first folder of the scan in lines 108–112 is some element of this list. -/
def qualifying_candidates (fwv : Catalog) (used_videos : List String)
    (available : List String) (last_folder : Option String) : List String :=
  (candidate_folders available last_folder).filter
    (fun f => !(unused_videos fwv used_videos f).isEmpty)

/-- The round-pool folders that have an unused video: the fallback scan of
lines 121–126 yields some element of this list. -/
def avail_qualifying (fwv : Catalog) (used_videos : List String)
    (available : List String) : List String :=
  available.filter (fun f => !(unused_videos fwv used_videos f).isEmpty)

/-- Folder choice of one loop iteration (lines 99–126): an oracle-chosen
folder with unused videos among the candidates; otherwise the previous
folder if it is still in the pool with unused videos (line 115);
otherwise an oracle-chosen folder with unused videos from the whole pool
(line 121); otherwise `none`. -/
def select_candidate_folder (fwv : Catalog) (used_videos : List String)
    (last_folder : Option String) (available : List String) (r₁ r₂ : Nat) :
    Option String :=
  match (qualifying_candidates fwv used_videos available last_folder)[r₁ %
      (qualifying_candidates fwv used_videos available last_folder).length]? with
  | some f => some f
  | none =>
    match last_folder with
    | some lf =>
        if lf ∈ available ∧ unused_videos fwv used_videos lf ≠ [] then some lf
        else (avail_qualifying fwv used_videos available)[r₂ %
              (avail_qualifying fwv used_videos available).length]?
    | none =>
        (avail_qualifying fwv used_videos available)[r₂ %
          (avail_qualifying fwv used_videos available).length]?

structure SelectionState where
  result : List String
  used_videos : List String
  last_folder : Option String
  available_folders_in_round : List String
  round : Nat
  folder_trace : List (Nat × String)
deriving Repr

/-- One iteration of the `for _ in range(count)` loop (lines 86–142):
refill the round pool when empty and stop (`none`) when no folder has
unused videos; choose a folder; choose one of its unused videos; extend
the result, mark the video used, drop the folder from the pool and
record it as previous.  The choice of an unused video is total on every
reachable state (the chosen folder always has one); the `none` on the
impossible empty case mirrors the defensive `break` of line 142. -/
def round_pool (fwv : Catalog) (s : SelectionState) : List String :=
  if s.available_folders_in_round.isEmpty then refill_round fwv s.used_videos
  else s.available_folders_in_round

def round_idx (s : SelectionState) : Nat :=
  if s.available_folders_in_round.isEmpty then s.round + 1 else s.round

def selection_step (fwv : Catalog) (o : Oracle) (t : Nat) (s : SelectionState) :
    Option SelectionState :=
  if (round_pool fwv s).isEmpty then none
  else
    match select_candidate_folder fwv s.used_videos s.last_folder (round_pool fwv s)
        (o (3 * t)) (o (3 * t + 1)) with
    | none => none
    | some f =>
      match (unused_videos fwv s.used_videos f)[o (3 * t + 2) %
          (unused_videos fwv s.used_videos f).length]? with
      | none => none
      | some v =>
        some { result := s.result ++ [v]
               used_videos := v :: s.used_videos
               last_folder := some f
               available_folders_in_round := (round_pool fwv s).erase f
               round := round_idx s
               folder_trace := s.folder_trace ++ [(round_idx s, f)] }

/-- The `for _ in range(count)` loop: `selection_step` until the count is
reached or a `break` fires. -/
def selection_loop (fwv : Catalog) (o : Oracle) : Nat → Nat → SelectionState → SelectionState
  | 0, _, s => s
  | k + 1, t, s =>
    match selection_step fwv o t s with
    | none => s
    | some s' => selection_loop fwv o k (t + 1) s'

/-- Loop state on entry (lines 78–84). -/
def initial_state (folder_to_videos : Catalog) : SelectionState :=
  { result := []
    used_videos := []
    last_folder := none
    available_folders_in_round := folder_to_videos.map Prod.fst
    round := 0
    folder_trace := [] }

/-- `pick_non_repeating_videos(folder_to_videos, count)` (lines 58–144):
raise `ValueError` when `count` exceeds the total inventory; with exactly
one folder return `random.sample(all_videos, min(count, len(all_videos)))`;
otherwise run the multi-folder selection loop. -/
def pick_non_repeating_videos (folder_to_videos : Catalog) (count : Nat) (o : Oracle) :
    Except String (List String) :=
  if total_videos folder_to_videos < count then
    .error ("Cannot select " ++ toString count ++ " unique videos. Maximum is "
      ++ toString (total_videos folder_to_videos) ++ ".")
  else if folder_to_videos.length = 1 then
    let all_videos := ((folder_to_videos.head?).map Prod.snd).getD []
    .ok (random_sample o 0 (min count all_videos.length) all_videos)
  else
    .ok (selection_loop (folders_with_videos folder_to_videos) o count 0
          (initial_state folder_to_videos)).result

/-- The catalog invariant of a built `VideoCatalog`: folder labels are
the keys of a Python dict (pairwise distinct), and the video paths are
distinct files on disk (globally pairwise distinct). -/
def all_videos_list (c : Catalog) : List String := (c.map Prod.snd).flatten

def catalog_wf (c : Catalog) : Prop :=
  (c.map Prod.fst).Nodup ∧ (all_videos_list c).Nodup


theorem nodup_getElem_not_mem_eraseIdx (l : List String) (hnd : l.Nodup) (i : Nat)
    (hi : i < l.length) : l[i] ∉ l.eraseIdx i := by
  intro hmem
  rw [List.mem_eraseIdx_iff_getElem?] at hmem
  obtain ⟨j, hji, hj⟩ := hmem
  have hjlt : j < l.length := by
    by_contra hge
    rw [List.getElem?_eq_none (by omega)] at hj
    exact Option.noConfusion hj
  rw [List.getElem?_eq_getElem hjlt] at hj
  have : l[j] = l[i] := Option.some.inj hj
  exact hji (List.Nodup.getElem_inj_iff hnd |>.mp this)

theorem random_sample_length (o : Oracle) :
    ∀ (k t : Nat) (l : List String), (random_sample o t k l).length = min k l.length := by
  intro k
  induction k with
  | zero => intro t l; simp [random_sample]
  | succ k ih =>
    intro t l
    by_cases hl : l = []
    · subst hl; simp [random_sample]
    · have hpos : 0 < l.length := List.length_pos.mpr hl
      have hidx : o t % l.length < l.length := Nat.mod_lt _ hpos
      unfold random_sample
      rw [List.getElem?_eq_getElem hidx]
      simp only [List.length_cons, ih]
      have := List.length_eraseIdx_add_one hidx
      omega

theorem random_sample_subset (o : Oracle) :
    ∀ (k t : Nat) (l : List String) (v : String), v ∈ random_sample o t k l → v ∈ l := by
  intro k
  induction k with
  | zero => intro t l v hv; simp [random_sample] at hv
  | succ k ih =>
    intro t l v hv
    unfold random_sample at hv
    rcases hg : l[o t % l.length]? with _ | w
    · rw [hg] at hv; simp at hv
    · rw [hg] at hv
      rcases List.mem_cons.mp hv with rfl | hv'
      · exact List.getElem?_mem hg
      · exact (List.eraseIdx_sublist l (o t % l.length)).subset (ih (t+1) _ v hv')

theorem random_sample_nodup (o : Oracle) :
    ∀ (k t : Nat) (l : List String), l.Nodup → (random_sample o t k l).Nodup := by
  intro k
  induction k with
  | zero => intro t l _; simp [random_sample]
  | succ k ih =>
    intro t l hnd
    unfold random_sample
    rcases hg : l[o t % l.length]? with _ | w
    · simp
    · rw [List.nodup_cons]
      have hidx : o t % l.length < l.length := by
        by_contra hge
        rw [List.getElem?_eq_none (by omega)] at hg
        exact Option.noConfusion hg
      have hw : l[o t % l.length] = w := by
        rw [List.getElem?_eq_getElem hidx] at hg
        exact Option.some.inj hg
      refine ⟨fun hmem => ?_, ih (t+1) _ (List.Nodup.sublist (List.eraseIdx_sublist l _) hnd)⟩
      · have := random_sample_subset o k (t+1) _ w hmem
        rw [← hw] at this
        exact nodup_getElem_not_mem_eraseIdx l hnd _ hidx this

/-- C3: for every catalog and every count strictly greater than the total
number of videos, selection raises the ValueError immediately — the result
is the error value, no list of selections is produced (no partial result),
and the catalog, a value the embedding never mutates, is unchanged. -/
theorem C3_insufficient_inventory_error (c : Catalog) (count : Nat) (o : Oracle)
    (h : total_videos c < count) :
    pick_non_repeating_videos c count o =
      .error ("Cannot select " ++ toString count ++ " unique videos. Maximum is "
        ++ toString (total_videos c) ++ ".") := by
  unfold pick_non_repeating_videos
  rw [if_pos h]

/-- Witness for C3: one folder holding one video, two requested. -/
theorem C3_insufficient_inventory_error_witness :
    total_videos [("A", ["a1"])] < 2 ∧
    pick_non_repeating_videos [("A", ["a1"])] 2 (fun _ => 0) =
      .error ("Cannot select " ++ toString 2 ++ " unique videos. Maximum is "
        ++ toString (total_videos [("A", ["a1"])]) ++ ".") := by
  exact ⟨by decide, C3_insufficient_inventory_error [("A", ["a1"])] 2 (fun _ => 0) (by decide)⟩

/-- C9: on a single-folder catalog (with the catalog invariant: distinct
paths) and `count` within the total, selection is
`random.sample(all_videos, min(count, len(all_videos)))`: for every
random draw the result is a without-replacement sample — pairwise
distinct elements of that folder's list — of size
`min(count, available)`, and the folder-diversity loop is never entered.
(Which sample is drawn is the oracle's choice; the distribution over
draws is `random.sample`'s.) -/
theorem C9_single_folder_sampling (f : String) (vs : List String) (count : Nat)
    (o : Oracle) (hwf : catalog_wf [(f, vs)]) (hc : count ≤ total_videos [(f, vs)]) :
    ∃ l, pick_non_repeating_videos [(f, vs)] count o = .ok l ∧
      l = random_sample o 0 (min count vs.length) vs ∧
      l.length = min count vs.length ∧ l.Nodup ∧ ∀ v ∈ l, v ∈ vs := by
  have htot : total_videos [(f, vs)] = vs.length := by simp [total_videos]
  have hnd : vs.Nodup := by simpa [catalog_wf, all_videos_list] using hwf.2
  refine ⟨random_sample o 0 (min count vs.length) vs, ?_, rfl, ?_, ?_, ?_⟩
  · unfold pick_non_repeating_videos
    rw [if_neg (by omega), if_pos (by rfl)]
    rfl
  · rw [random_sample_length]
    omega
  · exact random_sample_nodup o _ _ vs hnd
  · intro v hv
    exact random_sample_subset o _ _ vs v hv

/-- Witness for C9: three videos in one folder, two requested. -/
theorem C9_single_folder_sampling_witness :
    catalog_wf [("A", ["a1", "a2", "a3"])] ∧
    2 ≤ total_videos [("A", ["a1", "a2", "a3"])] ∧
    ∃ l, pick_non_repeating_videos [("A", ["a1", "a2", "a3"])] 2 (fun _ => 0) = .ok l ∧
      l = random_sample (fun _ => 0) 0 (min 2 ["a1", "a2", "a3"].length) ["a1", "a2", "a3"] ∧
      l.length = min 2 ["a1", "a2", "a3"].length ∧ l.Nodup ∧
      ∀ v ∈ l, v ∈ ["a1", "a2", "a3"] := by
  refine ⟨⟨by decide, by decide⟩, by decide, ?_⟩
  exact C9_single_folder_sampling "A" ["a1", "a2", "a3"] 2 (fun _ => 0)
    ⟨by decide, by decide⟩ (by decide)

theorem dict_get_of_mem {c : Catalog} (hk : (c.map Prod.fst).Nodup)
    {f : String} {vs : List String} (h : (f, vs) ∈ c) : dict_get c f = vs := by
  induction c with
  | nil => cases h
  | cons p rest ih =>
    rw [List.map_cons, List.nodup_cons] at hk
    rcases List.mem_cons.mp h with h | h
    · rw [← h]
      simp [dict_get]
    · have hne : p.1 ≠ f := by
        intro he
        exact hk.1 (he ▸ (List.mem_map_of_mem Prod.fst h : (f, vs).1 ∈ rest.map Prod.fst))
      simp only [dict_get, if_neg hne]
      exact ih hk.2 h

theorem mem_dict_get_mem_all {c : Catalog} {f v : String} (h : v ∈ dict_get c f) :
    v ∈ all_videos_list c := by
  induction c with
  | nil => cases h
  | cons p rest ih =>
    simp only [all_videos_list, List.map_cons, List.flatten_cons, List.mem_append]
    by_cases hpf : p.1 = f
    · rw [dict_get, if_pos hpf] at h
      exact Or.inl h
    · rw [dict_get, if_neg hpf] at h
      exact Or.inr (ih h)

theorem dict_get_disjoint {c : Catalog} (hnd : (all_videos_list c).Nodup)
    {f g : String} (hfg : f ≠ g) {v : String}
    (hf : v ∈ dict_get c f) (hg : v ∈ dict_get c g) : False := by
  induction c with
  | nil => cases hf
  | cons p rest ih =>
    have hnd' : (p.2 ++ all_videos_list rest).Nodup := by
      simpa [all_videos_list] using hnd
    rw [List.nodup_append] at hnd'
    by_cases hpf : p.1 = f <;> by_cases hpg : p.1 = g
    · exact hfg (hpf ▸ hpg)
    · rw [dict_get, if_pos hpf] at hf
      rw [dict_get, if_neg hpg] at hg
      exact hnd'.2.2 hf (mem_dict_get_mem_all hg)
    · rw [dict_get, if_neg hpf] at hf
      rw [dict_get, if_pos hpg] at hg
      exact hnd'.2.2 hg (mem_dict_get_mem_all hf)
    · rw [dict_get, if_neg hpf] at hf
      rw [dict_get, if_neg hpg] at hg
      exact ih hnd'.2.1 hf hg

theorem mem_unused_videos {fwv : Catalog} {used : List String} {f v : String} :
    v ∈ unused_videos fwv used f ↔ v ∈ dict_get fwv f ∧ v ∉ used := by
  simp [unused_videos, List.mem_filter]

theorem total_videos_eq_length (c : Catalog) :
    total_videos c = (all_videos_list c).length := by
  induction c with
  | nil => rfl
  | cons p rest ih =>
    simp only [total_videos, all_videos_list, List.map_cons, List.sum_cons,
      List.flatten_cons, List.length_append] at *
    omega

theorem mem_refill_round {fwv : Catalog} {used : List String} {f : String}
    (hk : (fwv.map Prod.fst).Nodup) :
    f ∈ refill_round fwv used ↔
      f ∈ fwv.map Prod.fst ∧ unused_videos fwv used f ≠ [] := by
  constructor
  · intro h
    obtain ⟨p, hp, rfl⟩ := List.mem_map.mp h
    have hp' := List.mem_filter.mp hp
    refine ⟨List.mem_map_of_mem Prod.fst hp'.1, ?_⟩
    obtain ⟨v, hv, hvu⟩ := List.any_eq_true.mp hp'.2
    have hdg : dict_get fwv p.1 = p.2 := dict_get_of_mem hk hp'.1
    intro hnil
    have : v ∈ unused_videos fwv used p.1 :=
      mem_unused_videos.mpr ⟨hdg ▸ hv, of_decide_eq_true hvu⟩
    rw [hnil] at this
    cases this
  · rintro ⟨hmem, hne⟩
    obtain ⟨p, hp, rfl⟩ := List.mem_map.mp hmem
    obtain ⟨v, hv⟩ := List.exists_mem_of_ne_nil _ hne
    have hdg : dict_get fwv p.1 = p.2 := dict_get_of_mem hk hp
    have hv' := mem_unused_videos.mp hv
    refine List.mem_map_of_mem Prod.fst (List.mem_filter.mpr ⟨hp, ?_⟩)
    exact List.any_eq_true.mpr ⟨v, hdg ▸ hv'.1, decide_eq_true hv'.2⟩

theorem refill_round_nodup {fwv : Catalog} {used : List String}
    (hk : (fwv.map Prod.fst).Nodup) : (refill_round fwv used).Nodup :=
  ((List.filter_sublist fwv).map Prod.fst).nodup hk


theorem candidate_folders_subset (available : List String) (last_folder : Option String) :
    candidate_folders available last_folder ⊆ available := by
  unfold candidate_folders
  cases last_folder with
  | none => exact fun a ha => ha
  | some lf =>
    show (if lf ∈ available ∧ 1 < available.length then available.erase lf
          else available) ⊆ available
    by_cases hcond : lf ∈ available ∧ 1 < available.length
    · rw [if_pos hcond]
      exact fun a ha => List.mem_of_mem_erase ha
    · rw [if_neg hcond]
      exact fun a ha => ha

theorem candidate_folders_ne_nil (available : List String) (last_folder : Option String)
    (hne : available ≠ []) : candidate_folders available last_folder ≠ [] := by
  unfold candidate_folders
  cases last_folder with
  | none => exact hne
  | some lf =>
    show (if lf ∈ available ∧ 1 < available.length then available.erase lf
          else available) ≠ []
    by_cases hcond : lf ∈ available ∧ 1 < available.length
    · rw [if_pos hcond]
      have hlen := List.length_erase_of_mem hcond.1
      intro hnil
      rw [hnil] at hlen
      simp only [List.length_nil] at hlen
      omega
    · rw [if_neg hcond]
      exact hne

theorem mem_qualifying_candidates {fwv : Catalog} {used_videos : List String}
    {available : List String} {last_folder : Option String} {f : String}
    (h : f ∈ qualifying_candidates fwv used_videos available last_folder) :
    f ∈ available ∧ unused_videos fwv used_videos f ≠ [] := by
  have h' := List.mem_filter.mp h
  exact ⟨candidate_folders_subset available last_folder h'.1, by simpa using h'.2⟩

theorem mem_avail_qualifying {fwv : Catalog} {used_videos : List String}
    {available : List String} {f : String}
    (h : f ∈ avail_qualifying fwv used_videos available) :
    f ∈ available ∧ unused_videos fwv used_videos f ≠ [] := by
  have h' := List.mem_filter.mp h
  exact ⟨h'.1, by simpa using h'.2⟩

theorem select_candidate_folder_mem {fwv : Catalog} {used_videos : List String}
    {last_folder : Option String} {available : List String} {r₁ r₂ : Nat} {f : String}
    (h : select_candidate_folder fwv used_videos last_folder available r₁ r₂ = some f) :
    f ∈ available ∧ unused_videos fwv used_videos f ≠ [] := by
  unfold select_candidate_folder at h
  rcases hg : (qualifying_candidates fwv used_videos available last_folder)[r₁ %
      (qualifying_candidates fwv used_videos available last_folder).length]? with _ | f'
  · rw [hg] at h
    cases last_folder with
    | none =>
      exact mem_avail_qualifying (List.getElem?_mem h)
    | some lf =>
      change (if lf ∈ available ∧ unused_videos fwv used_videos lf ≠ [] then some lf
        else (avail_qualifying fwv used_videos available)[r₂ %
          (avail_qualifying fwv used_videos available).length]?) = some f at h
      by_cases hcond : lf ∈ available ∧ unused_videos fwv used_videos lf ≠ []
      · rw [if_pos hcond] at h
        obtain rfl : lf = f := Option.some.inj h
        exact hcond
      · rw [if_neg hcond] at h
        exact mem_avail_qualifying (List.getElem?_mem h)
  · rw [hg] at h
    obtain rfl : f' = f := Option.some.inj h
    exact mem_qualifying_candidates (List.getElem?_mem hg)

theorem select_candidate_folder_isSome {fwv : Catalog} {used_videos : List String}
    {last_folder : Option String} {available : List String} (r₁ r₂ : Nat)
    (hne : available ≠ [])
    (hall : ∀ g ∈ available, unused_videos fwv used_videos g ≠ []) :
    ∃ f, select_candidate_folder fwv used_videos last_folder available r₁ r₂ = some f := by
  unfold select_candidate_folder
  have hfe : qualifying_candidates fwv used_videos available last_folder
      = candidate_folders available last_folder := by
    apply List.filter_eq_self.mpr
    intro a ha
    simpa using hall a (candidate_folders_subset available last_folder ha)
  rw [hfe]
  have hlen : 0 < (candidate_folders available last_folder).length :=
    List.length_pos.mpr (candidate_folders_ne_nil available last_folder hne)
  rw [List.getElem?_eq_getElem (Nat.mod_lt _ hlen)]
  exact ⟨_, rfl⟩

/-- The loop invariant of the multi-folder selection, relative to the
dict `fwv` the loop reads: the used set mirrors the result (which is
duplicate-free and drawn from the catalog), and every folder of the
round pool still has an unused video. -/
def SelInv (fwv : Catalog) (s : SelectionState) : Prop :=
  s.used_videos = s.result.reverse ∧
  s.result.Nodup ∧
  (∀ v ∈ s.result, v ∈ all_videos_list fwv) ∧
  s.available_folders_in_round.Nodup ∧
  (∀ f ∈ s.available_folders_in_round, unused_videos fwv s.used_videos f ≠ [])

theorem round_pool_nodup {fwv : Catalog} {s : SelectionState}
    (hk : (fwv.map Prod.fst).Nodup) (hinv : SelInv fwv s) :
    (round_pool fwv s).Nodup := by
  unfold round_pool
  split
  · exact refill_round_nodup hk
  · exact hinv.2.2.2.1

theorem round_pool_all_unused {fwv : Catalog} {s : SelectionState}
    (hk : (fwv.map Prod.fst).Nodup) (hinv : SelInv fwv s) :
    ∀ f ∈ round_pool fwv s, unused_videos fwv s.used_videos f ≠ [] := by
  unfold round_pool
  split
  · intro f hf
    exact ((mem_refill_round hk).mp hf).2
  · exact hinv.2.2.2.2

theorem selection_step_some_spec {fwv : Catalog} {o : Oracle} {t : Nat}
    {s s' : SelectionState} (h : selection_step fwv o t s = some s') :
    ∃ f v, f ∈ round_pool fwv s ∧
      v ∈ unused_videos fwv s.used_videos f ∧
      unused_videos fwv s.used_videos f ≠ [] ∧
      s' = { result := s.result ++ [v]
             used_videos := v :: s.used_videos
             last_folder := some f
             available_folders_in_round := (round_pool fwv s).erase f
             round := round_idx s
             folder_trace := s.folder_trace ++ [(round_idx s, f)] } := by
  unfold selection_step at h
  by_cases hemp : (round_pool fwv s).isEmpty
  · rw [if_pos hemp] at h
    cases h
  · rw [if_neg hemp] at h
    rcases hsel : select_candidate_folder fwv s.used_videos s.last_folder
        (round_pool fwv s) (o (3 * t)) (o (3 * t + 1)) with _ | f
    · rw [hsel] at h
      cases h
    · simp only [hsel] at h
      rcases hv : (unused_videos fwv s.used_videos f)[o (3 * t + 2) %
          (unused_videos fwv s.used_videos f).length]? with _ | v
      · rw [hv] at h
        cases h
      · rw [hv] at h
        obtain rfl : _ = s' := Option.some.inj h
        obtain ⟨hfmem, hfne⟩ := select_candidate_folder_mem hsel
        exact ⟨f, v, hfmem, List.getElem?_mem hv, hfne, rfl⟩

theorem selection_step_progress {fwv : Catalog} (o : Oracle) (t : Nat)
    {s : SelectionState} (hkeys : (fwv.map Prod.fst).Nodup)
    (hvids : (all_videos_list fwv).Nodup) (hinv : SelInv fwv s)
    (hlt : s.result.length < total_videos fwv) :
    ∃ s', selection_step fwv o t s = some s' := by
  have hused_nd : s.used_videos.Nodup := by
    rw [hinv.1]
    exact List.nodup_reverse.mpr hinv.2.1
  have hused_len : s.used_videos.length = s.result.length := by
    rw [hinv.1, List.length_reverse]
  have hex : ∃ v ∈ all_videos_list fwv, v ∉ s.used_videos := by
    by_contra hall
    push_neg at hall
    have h1 : (all_videos_list fwv).length ≤ s.used_videos.length :=
      (List.subperm_of_subset hvids hall).length_le
    rw [hused_len, ← total_videos_eq_length] at h1
    omega
  obtain ⟨v, hv_all, hv_un⟩ := hex
  obtain ⟨vs, hvs, hvvs⟩ := List.mem_flatten.mp hv_all
  obtain ⟨p, hp, rfl⟩ := List.mem_map.mp hvs
  have hdg : dict_get fwv p.1 = p.2 := dict_get_of_mem hkeys hp
  have hrefill : p.1 ∈ refill_round fwv s.used_videos := by
    refine (mem_refill_round hkeys).mpr ⟨List.mem_map_of_mem Prod.fst hp, ?_⟩
    intro hnil
    have : v ∈ unused_videos fwv s.used_videos p.1 :=
      mem_unused_videos.mpr ⟨hdg ▸ hvvs, hv_un⟩
    rw [hnil] at this
    cases this
  have hne : round_pool fwv s ≠ [] := by
    unfold round_pool
    split
    · exact List.ne_nil_of_mem hrefill
    · rename_i hemp
      intro hnil
      rw [hnil] at hemp
      exact hemp rfl
  obtain ⟨f, hsel⟩ := @select_candidate_folder_isSome fwv s.used_videos s.last_folder
    (round_pool fwv s) (o (3 * t)) (o (3 * t + 1)) hne
    (round_pool_all_unused hkeys hinv)
  obtain ⟨hfmem, hfne⟩ := select_candidate_folder_mem hsel
  have hlen : 0 < (unused_videos fwv s.used_videos f).length := List.length_pos.mpr hfne
  have hstep : selection_step fwv o t s ≠ none := by
    unfold selection_step
    rw [if_neg (by simpa [List.isEmpty_iff] using hne)]
    simp only [hsel]
    rw [List.getElem?_eq_getElem (Nat.mod_lt _ hlen)]
    simp
  exact Option.ne_none_iff_exists'.mp hstep

theorem selection_step_inv {fwv : Catalog} {o : Oracle} {t : Nat}
    {s s' : SelectionState} (hkeys : (fwv.map Prod.fst).Nodup)
    (hvids : (all_videos_list fwv).Nodup) (hinv : SelInv fwv s)
    (h : selection_step fwv o t s = some s') :
    SelInv fwv s' ∧ s'.result.length = s.result.length + 1 := by
  obtain ⟨f, v, hfmem, hvmem, hfne, rfl⟩ := selection_step_some_spec h
  obtain ⟨hvdict, hvun⟩ := mem_unused_videos.mp hvmem
  have hvres : v ∉ s.result := by
    intro hv
    apply hvun
    rw [hinv.1, List.mem_reverse]
    exact hv
  have hpool_nd : (round_pool fwv s).Nodup := round_pool_nodup hkeys hinv
  refine ⟨⟨?_, ?_, ?_, ?_, ?_⟩, by simp⟩
  · simp [hinv.1]
  · simp only []
    exact List.Nodup.append hinv.2.1 (List.nodup_cons.mpr ⟨List.not_mem_nil v, List.nodup_nil⟩)
      (fun a ha hav => hvres (by simpa using (List.mem_singleton.mp (by simpa using hav)) ▸ ha))
  · intro w hw
    rcases List.mem_append.mp hw with hw | hw
    · exact hinv.2.2.1 w hw
    · rw [List.mem_singleton.mp hw]
      exact mem_dict_get_mem_all hvdict
  · exact List.Nodup.erase f hpool_nd
  · intro g hg
    have hgf : g ≠ f ∧ g ∈ round_pool fwv s := (hpool_nd.mem_erase_iff).mp hg
    have hgne := round_pool_all_unused hkeys hinv g hgf.2
    obtain ⟨w, hw⟩ := List.exists_mem_of_ne_nil _ hgne
    obtain ⟨hwdict, hwun⟩ := mem_unused_videos.mp hw
    have hwv : w ≠ v := fun heq =>
      dict_get_disjoint hvids hgf.1 hwdict (heq ▸ hvdict)
    intro hnil
    have : w ∈ unused_videos fwv (v :: s.used_videos) g := by
      refine mem_unused_videos.mpr ⟨hwdict, ?_⟩
      intro hmem
      rcases List.mem_cons.mp hmem with heq | hmem'
      · exact hwv heq
      · exact hwun hmem'
    rw [hnil] at this
    cases this

theorem selection_loop_spec (fwv : Catalog) (o : Oracle)
    (hkeys : (fwv.map Prod.fst).Nodup) (hvids : (all_videos_list fwv).Nodup) :
    ∀ (k t : Nat) (s : SelectionState), SelInv fwv s →
      s.result.length + k ≤ total_videos fwv →
      (selection_loop fwv o k t s).result.length = s.result.length + k ∧
      (selection_loop fwv o k t s).result.Nodup := by
  intro k
  induction k with
  | zero =>
    intro t s hinv _
    exact ⟨by simp [selection_loop], hinv.2.1⟩
  | succ k ih =>
    intro t s hinv hle
    obtain ⟨s', hs'⟩ := selection_step_progress o t hkeys hvids hinv (by omega)
    obtain ⟨hinv', hlen'⟩ := selection_step_inv hkeys hvids hinv hs'
    unfold selection_loop
    simp only [hs']
    obtain ⟨hl, hn⟩ := ih (t + 1) s' hinv' (by omega)
    exact ⟨by omega, hn⟩

theorem initial_state_inv (c : Catalog) (hwf : catalog_wf c)
    (hne : ∀ p ∈ c, p.2 ≠ []) : SelInv c (initial_state c) := by
  refine ⟨rfl, List.nodup_nil, by simp [initial_state], hwf.1, ?_⟩
  intro f hf
  obtain ⟨p, hp, rfl⟩ := List.mem_map.mp hf
  have hdg : dict_get c p.1 = p.2 := dict_get_of_mem hwf.1 hp
  have heq : unused_videos c [] p.1 = p.2 := by
    unfold unused_videos
    rw [hdg]
    apply List.filter_eq_self.mpr
    intro a _
    simp
  show unused_videos c [] p.1 ≠ []
  rw [heq]
  exact hne p hp

/-- C2: for every catalog satisfying the catalog invariant (a dict of
distinct folder labels whose paths are distinct files) with at least two
folders, all of them non-empty, and every `count ≤ total`, every run of
the selection returns exactly `count` pairwise-distinct paths — it never
stops early and never emits a duplicate. -/
theorem C2_selection_count_distinct (c : Catalog) (count : Nat) (o : Oracle)
    (hwf : catalog_wf c) (h2 : 2 ≤ c.length) (hne : ∀ p ∈ c, p.2 ≠ [])
    (hcount : count ≤ total_videos c) :
    ∃ l, pick_non_repeating_videos c count o = .ok l ∧
      l.length = count ∧ l.Nodup := by
  have hfwv : folders_with_videos c = c := by
    unfold folders_with_videos
    apply List.filter_eq_self.mpr
    intro p hp
    simpa using hne p hp
  have hinit : (initial_state c).result.length + count ≤ total_videos c := by
    simp only [initial_state, List.length_nil]
    omega
  have hrun := selection_loop_spec c o hwf.1 hwf.2 count 0 (initial_state c)
    (initial_state_inv c hwf hne) hinit
  refine ⟨(selection_loop c o count 0 (initial_state c)).result, ?_, ?_, hrun.2⟩
  · unfold pick_non_repeating_videos
    rw [if_neg (by omega), if_neg (by omega), hfwv]
  · rw [hrun.1]
    simp [initial_state]

/-- Witness for C2: two folders of two videos each, four requested, the
constant-zero oracle. -/
theorem C2_selection_count_distinct_witness :
    catalog_wf [("A", ["a1", "a2"]), ("B", ["b1", "b2"])] ∧
    2 ≤ ([("A", ["a1", "a2"]), ("B", ["b1", "b2"])] : Catalog).length ∧
    4 ≤ total_videos [("A", ["a1", "a2"]), ("B", ["b1", "b2"])] ∧
    ∃ l, pick_non_repeating_videos [("A", ["a1", "a2"]), ("B", ["b1", "b2"])] 4
        (fun _ => 0) = .ok l ∧ l.length = 4 ∧ l.Nodup := by
  refine ⟨⟨by decide, by decide⟩, by decide, by decide, ?_⟩
  exact C2_selection_count_distinct [("A", ["a1", "a2"]), ("B", ["b1", "b2"])] 4
    (fun _ => 0) ⟨by decide, by decide⟩ (by decide)
    (by
      intro p hp
      simp only [List.mem_cons, List.not_mem_nil, or_false] at hp
      rcases hp with rfl | rfl <;> decide) (by decide)

/-- Modelled from the spec (§8 round-robin property): over the folder
sequence `fs` of one selection run on catalog `c`, a folder `F` with
multiple videos must not appear twice among any `k` consecutive
selections when `k` is smaller than the number of folders that still
have unused inventory.  The requirement is imposed only on windows
during which every folder of the catalog still has unused inventory —
then nothing is "forced by inventory exhaustion" and the number of
folders with unused inventory is the number of folders — so any reading
of the spec sentence implies this predicate. -/
def spec_round_robin_window (c : Catalog) (fs : List String) : Prop :=
  ∀ F ∈ c.map Prod.fst, 2 ≤ (dict_get c F).length →
    ∀ i k : Nat, k < c.length →
      (∀ j : Nat, i ≤ j → j < i + k → ∀ p ∈ c, (fs.take j).count p.1 < p.2.length) →
      ((fs.drop i).take k).count F ≤ 1

/-- Four folders of two videos each. -/
def roundRobinCatalog : Catalog :=
  [("A", ["a1", "a2"]), ("B", ["b1", "b2"]), ("C", ["c1", "c2"]), ("D", ["d1", "d2"])]

/-- A possible stream of random draws: every choice is the first
alternative except the folder choice of the fifth pick. -/
def roundRobinOracle : Oracle := fun n => if n = 12 then 2 else 0

/-- The folder of each pick in the corresponding run: A, B, C, D, C. -/
def roundRobinFolders : List String :=
  ((selection_loop (folders_with_videos roundRobinCatalog) roundRobinOracle 5 0
    (initial_state roundRobinCatalog)).folder_trace).map Prod.snd

example : roundRobinFolders = ["A", "B", "C", "D", "C"] := by decide

/-- C8 counterexample: in the run A, B, C, D, C on four two-video folders,
folder C appears twice among the three consecutive selections C, D, C
while all four folders still have unused inventory at every pick of that
window (k = 3 < 4 folders with inventory, nothing exhausted), violating
the claimed round-robin window property: after a round-pool refill the
previous round's picks are eligible again immediately. -/
theorem C8_window_property_counterexample :
    ¬ spec_round_robin_window roundRobinCatalog roundRobinFolders := by
  intro h
  have h2 := h "C" (by decide) (by decide) 2 3 (by decide) ?_
  · revert h2
    decide
  · intro j hj1 hj2
    interval_cases j <;> decide

/-- Trace invariant: rounds recorded so far never exceed the current
round counter, within each round the recorded folders are pairwise
distinct, and a folder recorded in the current round is no longer in the
round pool. -/
def TraceInv (s : SelectionState) : Prop :=
  (∀ e ∈ s.folder_trace, e.1 ≤ s.round) ∧
  (∀ r : Nat, ((s.folder_trace.filter (fun e => e.1 = r)).map Prod.snd).Nodup) ∧
  (∀ e ∈ s.folder_trace, e.1 = s.round → e.2 ∉ s.available_folders_in_round)

theorem round_idx_cases (fwv : Catalog) (s : SelectionState) :
    (round_idx s = s.round ∧ round_pool fwv s = s.available_folders_in_round) ∨
    (round_idx s = s.round + 1 ∧
      round_pool fwv s = refill_round fwv s.used_videos ∧
      s.available_folders_in_round = []) := by
  unfold round_idx round_pool
  by_cases hemp : s.available_folders_in_round.isEmpty
  · right
    rw [if_pos hemp, if_pos hemp]
    exact ⟨rfl, rfl, List.isEmpty_iff.mp hemp⟩
  · left
    rw [if_neg hemp, if_neg hemp]
    exact ⟨rfl, rfl⟩

theorem selection_step_trace_inv {fwv : Catalog} {o : Oracle} {t : Nat}
    {s s' : SelectionState} (hkeys : (fwv.map Prod.fst).Nodup)
    (hinv : SelInv fwv s) (htr : TraceInv s)
    (h : selection_step fwv o t s = some s') : TraceInv s' := by
  obtain ⟨f, v, hfmem, hvmem, hfne, rfl⟩ := selection_step_some_spec h
  have hpool_nd : (round_pool fwv s).Nodup := round_pool_nodup hkeys hinv
  have hfnotin : f ∉ (round_pool fwv s).erase f := fun hmem =>
    ((hpool_nd.mem_erase_iff).mp hmem).1 rfl
  have herase_sub : (round_pool fwv s).erase f ⊆ round_pool fwv s :=
    fun a ha => List.mem_of_mem_erase ha
  have hround_le : s.round ≤ round_idx s := by
    unfold round_idx
    split <;> omega
  have hfilter_single : ∀ r : Nat,
      List.filter (fun e => decide (e.1 = r)) [(round_idx s, f)] =
        if round_idx s = r then [(round_idx s, f)] else [] := by
    intro r
    by_cases hrq : round_idx s = r <;> simp [hrq]
  have hold_notpool : ∀ e ∈ s.folder_trace, e.1 = round_idx s →
      e.2 ∉ round_pool fwv s := by
    intro e he heq
    rcases round_idx_cases fwv s with ⟨hr, hp⟩ | ⟨hr, _, _⟩
    · rw [hp]
      exact htr.2.2 e he (heq.trans hr)
    · exfalso
      have := htr.1 e he
      omega
  refine ⟨?_, ?_, ?_⟩
  · intro e he
    rcases List.mem_append.mp he with he | he
    · exact le_trans (htr.1 e he) hround_le
    · rw [List.mem_singleton.mp he]
  · intro r
    show ((List.filter (fun e => decide (e.1 = r))
      (s.folder_trace ++ [(round_idx s, f)])).map Prod.snd).Nodup
    rw [List.filter_append, hfilter_single r, List.map_append]
    by_cases hrq : round_idx s = r
    · rw [if_pos hrq]
      apply List.Nodup.append (htr.2.1 r) (by simp)
      intro a ha hb
      simp only [List.map_cons, List.map_nil, List.mem_singleton] at hb
      subst hb
      obtain ⟨e, he, heq2⟩ := List.mem_map.mp ha
      have he' := List.mem_filter.mp he
      have heq : e.1 = round_idx s := by
        have h1 := of_decide_eq_true he'.2
        omega
      exact hold_notpool e he'.1 heq (heq2 ▸ hfmem)
    · rw [if_neg hrq, List.map_nil, List.append_nil]
      exact htr.2.1 r
  · intro e he heq
    rcases List.mem_append.mp he with he | he
    · intro hmem
      exact hold_notpool e he heq (herase_sub hmem)
    · rw [List.mem_singleton.mp he]
      exact hfnotin

theorem initial_state_trace_inv (c : Catalog) : TraceInv (initial_state c) := by
  refine ⟨?_, ?_, ?_⟩
  · intro e he
    cases he
  · intro r
    simp [initial_state]
  · intro e he
    cases he

theorem selection_loop_trace_inv (fwv : Catalog) (o : Oracle)
    (hkeys : (fwv.map Prod.fst).Nodup) (hvids : (all_videos_list fwv).Nodup) :
    ∀ (k t : Nat) (s : SelectionState), SelInv fwv s → TraceInv s →
      TraceInv (selection_loop fwv o k t s) := by
  intro k
  induction k with
  | zero =>
    intro t s _ htr
    exact htr
  | succ k ih =>
    intro t s hinv htr
    unfold selection_loop
    rcases hs : selection_step fwv o t s with _ | s'
    · exact htr
    · simp only []
      exact ih (t + 1) s' (selection_step_inv hkeys hvids hinv hs).1
        (selection_step_trace_inv hkeys hinv htr hs)

/-- C8 amended: in every selection run over a multi-folder catalog (the
catalog invariant holding, all folders non-empty), no folder is selected
twice within a single round-robin round — two picks of the same folder
are always separated by a refill of the eligible-folders pool.  The
window form of the claim holds only for windows inside one round: as the
counterexample shows, right after a refill a folder may reappear with
only one intervening selection even though every folder still has
inventory. -/
theorem C8_round_robin_per_round_amended (c : Catalog) (count : Nat) (o : Oracle)
    (hwf : catalog_wf c) (hne : ∀ p ∈ c, p.2 ≠ []) :
    ∀ r : Nat,
      (((selection_loop (folders_with_videos c) o count 0
          (initial_state c)).folder_trace.filter
        (fun e => e.1 = r)).map Prod.snd).Nodup := by
  have hfwv : folders_with_videos c = c := by
    unfold folders_with_videos
    apply List.filter_eq_self.mpr
    intro p hp
    simpa using hne p hp
  rw [hfwv]
  exact (selection_loop_trace_inv c o hwf.1 hwf.2 count 0 (initial_state c)
    (initial_state_inv c hwf hne) (initial_state_trace_inv c)).2.1

/-- Witness for C8 amended on the counterexample run itself: every round
of the A, B, C, D, C trace is duplicate-free (C repeats only across the
round boundary). -/
theorem C8_round_robin_per_round_amended_witness :
    catalog_wf roundRobinCatalog ∧
    (∀ p ∈ roundRobinCatalog, p.2 ≠ []) ∧
    ∀ r : Nat,
      (((selection_loop (folders_with_videos roundRobinCatalog) roundRobinOracle 5 0
          (initial_state roundRobinCatalog)).folder_trace.filter
        (fun e => e.1 = r)).map Prod.snd).Nodup := by
  refine ⟨⟨by decide, by decide⟩, ?_, ?_⟩
  · intro p hp
    simp only [roundRobinCatalog, List.mem_cons, List.not_mem_nil, or_false] at hp
    rcases hp with rfl | rfl | rfl | rfl <;> decide
  · exact C8_round_robin_per_round_amended roundRobinCatalog 5 roundRobinOracle
      ⟨by decide, by decide⟩
      (by
        intro p hp
        simp only [roundRobinCatalog, List.mem_cons, List.not_mem_nil, or_false] at hp
        rcases hp with rfl | rfl | rfl | rfl <;> decide)
